import Mathlib

/-!
Verification of the AutonomousVehicleChargingStation orchestration core.

Shallow embedding of the repository's Python sources:
  * `src/models/vehicle.py`        (`VehicleType`, `Vehicle`)
  * `src/models/charging_slot.py`  (`ChargingSlot`)
  * `src/services/billing_service.py` (`BillingService`, `Invoice`)
  * `src/services/queue_manager.py`   (`QueueManager`, CPython `heapq`)

Modelling conventions:
  * Python floats are modelled as exact rationals (`ℚ`); `round(x, 2)` is
    modelled as exact round-half-to-even on hundredths (`pyRound2`).
  * `datetime.now()` is modelled as an externally supplied clock value
    (`now : ℕ`) passed to the operations that stamp timestamps.
  * Methods that mutate `self` (or a referenced `Vehicle`) are modelled as
    functions returning the updated record alongside the Python return value.
  * `int(x)` (truncation toward zero) is `pyTrunc`.
-/

namespace AVCS

/-- Vehicle category enumeration from `vehicle.py` (`VehicleType`). -/
inductive VehicleType where
  | SEDAN
  | SUV
  | TRUCK
  | BUS
deriving DecidableEq, Repr

/-- The `priority_modifier` data attached to each `VehicleType` member:
`SEDAN = ("Sedan", 60.0, 1)`, `SUV = ("SUV", 80.0, 1)`,
`TRUCK = ("Truck", 100.0, 2)`, `BUS = ("Bus", 150.0, 3)`. -/
def VehicleType.priority_modifier : VehicleType → ℤ
  | .SEDAN => 1
  | .SUV => 1
  | .TRUCK => 2
  | .BUS => 3

/-- The `typical_capacity` data attached to each `VehicleType` member. -/
def VehicleType.typical_capacity : VehicleType → ℚ
  | .SEDAN => 60
  | .SUV => 80
  | .TRUCK => 100
  | .BUS => 150

/-- State of a `Vehicle` object (`vehicle.py`).  Timestamps are clock values;
the constructor leaves both charging timestamps unset. -/
structure Vehicle where
  vehicle_id : String
  vehicle_type : VehicleType
  battery_capacity : ℚ
  current_charge : ℚ
  has_reservation : Bool
  charging_start_time : Option ℕ
  charging_end_time : Option ℕ
deriving DecidableEq, Repr

/-- `Vehicle.__init__`: stores the five arguments, charging timestamps start
as `None`. -/
def mkVehicle (vehicle_id : String) (vehicle_type : VehicleType)
    (battery_capacity current_charge : ℚ) (has_reservation : Bool) : Vehicle :=
  ⟨vehicle_id, vehicle_type, battery_capacity, current_charge, has_reservation,
    none, none⟩

/-- `Vehicle.get_required_charge`: `battery_capacity - current_charge`. -/
def Vehicle.get_required_charge (v : Vehicle) : ℚ :=
  v.battery_capacity - v.current_charge

/-- `Vehicle.get_charge_percentage`: `current_charge / battery_capacity * 100`. -/
def Vehicle.get_charge_percentage (v : Vehicle) : ℚ :=
  v.current_charge / v.battery_capacity * 100

/-- `Vehicle.update_charge`: `current_charge = min(current_charge + amount,
battery_capacity)`. -/
def Vehicle.update_charge (v : Vehicle) (amount : ℚ) : Vehicle :=
  { v with current_charge := min (v.current_charge + amount) v.battery_capacity }

/-- Python `int(x)` on a rational: truncation toward zero. -/
def pyTrunc (q : ℚ) : ℤ :=
  if 0 ≤ q then ⌊q⌋ else -⌊-q⌋

/-- `Vehicle.calculate_priority`: `0` when reserved, otherwise
`int(charge percentage) + priority_modifier * 10`. -/
def Vehicle.calculate_priority (v : Vehicle) : ℤ :=
  if v.has_reservation then 0
  else pyTrunc v.get_charge_percentage + v.vehicle_type.priority_modifier * 10

/-- Python round-half-to-even of a rational to an integer. -/
def roundHalfEven (q : ℚ) : ℤ :=
  if q - ⌊q⌋ < 1/2 then ⌊q⌋
  else if 1/2 < q - ⌊q⌋ then ⌊q⌋ + 1
  else if ⌊q⌋ % 2 = 0 then ⌊q⌋ else ⌊q⌋ + 1

/-- Python `round(x, 2)` on the exact-rational model. -/
def pyRound2 (q : ℚ) : ℚ :=
  (roundHalfEven (q * 100) : ℚ) / 100

/-- State of a `BillingService` object (`billing_service.py`).  The pricing
dict maps every `VehicleType` (all four constructors are present from
`__init__` on, and `update_pricing` only overwrites entries, so the
`dict.get(vt, 0.30)` default never fires and the dict is a total map). -/
structure BillingState where
  invoice_counter : ℕ
  pricing_config : VehicleType → ℚ
  connection_fee : ℚ
  peak_hour_multiplier : ℚ
  total_revenue : ℚ

/-- `BillingService.__init__`: counter 0, rates Sedan 0.30 / SUV 0.32 /
Truck 0.35 / Bus 0.28, connection fee 2.00, peak multiplier 1.2, revenue 0. -/
def initBilling : BillingState :=
  ⟨0,
   fun t => match t with
     | .SEDAN => 3/10
     | .SUV => 8/25
     | .TRUCK => 7/20
     | .BUS => 7/25,
   2, 6/5, 0⟩

/-- `BillingService.calculate_cost(vehicle, duration, power_consumed,
is_peak_hour)`: energy cost at the per-type rate, peak multiplier on the
energy cost only, plus connection fee, then the 5% reservation discount,
rounded to 2 decimals.  The `duration` argument is accepted but unused. -/
def calculate_cost (b : BillingState) (vehicle : Vehicle) (duration : ℚ)
    (power_consumed : ℚ) (is_peak_hour : Bool) : ℚ :=
  let base_rate := b.pricing_config vehicle.vehicle_type
  let power_cost := power_consumed * base_rate
  let power_cost2 := if is_peak_hour then power_cost * b.peak_hour_multiplier
    else power_cost
  let total_cost := power_cost2 + b.connection_fee
  let total_cost2 := if vehicle.has_reservation then total_cost * (95/100)
    else total_cost
  pyRound2 total_cost2

/-- An `Invoice` (`billing_service.py`); the sequential id is kept as the
counter value that is zero-padded into the `INV-......` string. -/
structure Invoice where
  invoice_id : ℕ
  vehicle_id : String
  charging_duration : ℚ
  power_consumed : ℚ
  total_cost : ℚ
deriving DecidableEq, Repr

/-- `BillingService.generate_invoice`: computes the cost, increments the
invoice counter, and returns the new immutable invoice. -/
def generate_invoice (b : BillingState) (vehicle : Vehicle) (duration : ℚ)
    (power_consumed : ℚ) (is_peak_hour : Bool) : Invoice × BillingState :=
  let total_cost := calculate_cost b vehicle duration power_consumed is_peak_hour
  let c := b.invoice_counter + 1
  (⟨c, vehicle.vehicle_id, duration, power_consumed, total_cost⟩,
   { b with invoice_counter := c })

/-- `BillingService.process_payment`: fails on `amount ≤ 0` leaving the state
untouched, otherwise adds the amount to `total_revenue`. -/
def process_payment (b : BillingState) (vehicle : Vehicle) (amount : ℚ) :
    Bool × BillingState :=
  if amount ≤ 0 then (false, b)
  else (true, { b with total_revenue := b.total_revenue + amount })

/-- `BillingService.update_pricing`: overwrites one per-type rate. -/
def update_pricing (b : BillingState) (vehicle_type : VehicleType)
    (new_rate : ℚ) : BillingState :=
  { b with pricing_config := fun t =>
      if t = vehicle_type then new_rate else b.pricing_config t }

/-- State of a `ChargingSlot` object (`charging_slot.py`): fresh slots are
available, hold no vehicle, no start timestamp, `total_power_consumed = 0`. -/
structure ChargingSlot where
  slot_id : String
  power_rating : ℚ
  is_available : Bool
  current_vehicle : Option Vehicle
  charging_start_time : Option ℕ
  total_power_consumed : ℚ
deriving DecidableEq, Repr

/-- `ChargingSlot.__init__`. -/
def mkSlot (slot_id : String) (power_rating : ℚ) : ChargingSlot :=
  ⟨slot_id, power_rating, true, none, none, 0⟩

/-- `ChargingSlot.assign_vehicle`: fails on an occupied slot; otherwise binds
the vehicle, flips availability, stamps the start time on the slot and on the
vehicle. -/
def ChargingSlot.assign_vehicle (s : ChargingSlot) (vehicle : Vehicle)
    (now : ℕ) : Bool × ChargingSlot :=
  if s.is_available = false then (false, s)
  else
    (true,
     { s with
        current_vehicle := some { vehicle with charging_start_time := some now }
        is_available := false
        charging_start_time := some now })

/-- `ChargingSlot.release_vehicle`: `None` when no vehicle is bound; otherwise
stamps the end time on the vehicle, detaches it, marks the slot available and
clears the slot's start timestamp.  (`total_power_consumed` is untouched.) -/
def ChargingSlot.release_vehicle (s : ChargingSlot) (now : ℕ) :
    Option Vehicle × ChargingSlot :=
  match s.current_vehicle with
  | none => (none, s)
  | some v =>
      (some { v with charging_end_time := some now },
       { s with
          current_vehicle := none
          is_available := true
          charging_start_time := none })

/-- `ChargingSlot.simulate_charging`: zero and no state change when no vehicle
is bound; otherwise delivers `min(power_rating * duration, required charge)`
to the vehicle and accumulates it into `total_power_consumed`. -/
def ChargingSlot.simulate_charging (s : ChargingSlot) (duration_hours : ℚ) :
    ℚ × ChargingSlot :=
  match s.current_vehicle with
  | none => (0, s)
  | some v =>
      let power_consumed := min (s.power_rating * duration_hours)
        v.get_required_charge
      (power_consumed,
       { s with
          current_vehicle := some (v.update_charge power_consumed)
          total_power_consumed := s.total_power_consumed + power_consumed })

/-- `ChargingSlot.is_charging_complete`: true when empty or the bound
vehicle's charge percentage reached 99. -/
def ChargingSlot.is_charging_complete (s : ChargingSlot) : Bool :=
  match s.current_vehicle with
  | none => true
  | some v => decide ((99 : ℚ) ≤ v.get_charge_percentage)

/-- Slot states reachable from a freshly constructed slot by any sequence of
`assign_vehicle`, `release_vehicle` and `simulate_charging` calls. -/
inductive SlotReach : ChargingSlot → Prop where
  | init (slot_id : String) (power_rating : ℚ) :
      SlotReach (mkSlot slot_id power_rating)
  | assign {s : ChargingSlot} (v : Vehicle) (now : ℕ) :
      SlotReach s → SlotReach (s.assign_vehicle v now).2
  | release {s : ChargingSlot} (now : ℕ) :
      SlotReach s → SlotReach (s.release_vehicle now).2
  | tick {s : ChargingSlot} (d : ℚ) :
      SlotReach s → SlotReach (s.simulate_charging d).2

/-- Concrete occupied slot with accumulated session energy: fresh 10 kW slot,
Sedan assigned at time 0, then one hour of charging (delivers 10 kWh). -/
def demoChargedSlot : ChargingSlot :=
  (((mkSlot "SLOT-9" 10).assign_vehicle (mkVehicle "AV-9" .SEDAN 60 0 false)
      0).2.simulate_charging 1).2

/-- `Vehicle.__lt__`: vehicles compare by `calculate_priority`. -/
def Vehicle.lt (a b : Vehicle) : Prop :=
  a.calculate_priority < b.calculate_priority

/-- One `heapq` entry of `QueueManager._queue`: the Python tuple
`(priority, counter, vehicle)`. -/
structure Entry where
  priority : ℤ
  counter : ℕ
  vehicle : Vehicle
deriving DecidableEq, Repr

instance : Inhabited Entry :=
  ⟨⟨0, 0, ⟨"", .SEDAN, 1, 0, false, none, none⟩⟩⟩

/-- Python `<` on the tuples `(priority, counter, vehicle)`: lexicographic,
falling through to `Vehicle.__lt__` only when priority and counter both tie
(counters are unique within one queue, so that branch is never taken there). -/
def entryLt (a b : Entry) : Prop :=
  a.priority < b.priority ∨ (a.priority = b.priority ∧
    (a.counter < b.counter ∨ (a.counter = b.counter ∧
      Vehicle.lt a.vehicle b.vehicle)))

instance (a b : Entry) : Decidable (entryLt a b) := by
  unfold entryLt Vehicle.lt
  infer_instance

/-- Indexing into the heap array; out-of-range reads return the default entry
(all accesses we reason about are in range). -/
def eget (l : List Entry) (i : ℕ) : Entry := l.getD i default

/-- CPython `heapq._siftdown(heap, startpos, pos)`: bubble the new item up
from `pos` toward `startpos`, moving parents down until the parent is not
greater. -/
def siftdownAux (h : List Entry) (newitem : Entry) (startpos pos : ℕ) :
    List Entry :=
  if hguard : startpos < pos then
    if entryLt newitem (eget h ((pos - 1) / 2)) then
      siftdownAux (h.set pos (eget h ((pos - 1) / 2))) newitem startpos
        ((pos - 1) / 2)
    else h.set pos newitem
  else h.set pos newitem
termination_by pos
decreasing_by omega

/-- CPython `heapq._siftup(heap, pos)` (with `startpos = pos` recorded):
walk the hole down to a leaf always taking the smaller child
(`childpos = rightpos` when `rightpos < endpos and not heap[childpos] <
heap[rightpos]`), place the new item at the leaf, then `_siftdown` back up. -/
def siftupAux (h : List Entry) (newitem : Entry) (startpos pos : ℕ) :
    List Entry :=
  if hc : 2 * pos + 1 < h.length then
    if hr : 2 * pos + 2 < h.length ∧
        ¬ entryLt (eget h (2 * pos + 1)) (eget h (2 * pos + 2)) then
      siftupAux (h.set pos (eget h (2 * pos + 2))) newitem startpos
        (2 * pos + 2)
    else
      siftupAux (h.set pos (eget h (2 * pos + 1))) newitem startpos
        (2 * pos + 1)
  else siftdownAux (h.set pos newitem) newitem startpos pos
termination_by h.length - pos
decreasing_by
  · simp only [List.length_set]
    omega
  · simp only [List.length_set]
    omega

/-- CPython `heapq.heappush`: append then `_siftdown(heap, 0, len(heap)-1)`. -/
def heappush (h : List Entry) (item : Entry) : List Entry :=
  siftdownAux (h ++ [item]) item 0 h.length

/-- CPython `heapq.heappop`: pop the last element; if the heap is still
nonempty, move it to the root and `_siftup(heap, 0)`, returning the old
root.  The empty case (an `IndexError` in Python) is `none`; every caller in
`queue_manager.py` guards emptiness first. -/
def heappop (h : List Entry) : Option (Entry × List Entry) :=
  if h0 : h = [] then none
  else
    if h.dropLast = [] then some (h.getLast h0, [])
    else some (eget h.dropLast 0,
      siftupAux (h.dropLast.set 0 (h.getLast h0)) (h.getLast h0) 0 0)

/-- The loop of CPython `heapq.heapify`: `_siftup(x, i)` for
`i = n//2 - 1, ..., 0`. -/
def heapifyGo (h : List Entry) : ℕ → List Entry
  | 0 => h
  | k + 1 => heapifyGo (siftupAux h (eget h k) k k) k

/-- CPython `heapq.heapify`. -/
def heapify (h : List Entry) : List Entry :=
  heapifyGo h (h.length / 2)

/-- `j` lies in the subtree rooted at `r` of the implicit binary heap shape
(children of `i` are `2i+1` and `2i+2`). -/
inductive Desc : ℕ → ℕ → Prop where
  | refl (r : ℕ) : Desc r r
  | child {r j : ℕ} (k : ℕ) : Desc r j → k = 2 * j + 1 ∨ k = 2 * j + 2 →
      Desc r k

/-- The binary-heap ordering restricted to the subtree rooted at `sp`: every
in-range node below `sp` is not smaller than its parent. -/
def HeapAt (l : List Entry) (sp : ℕ) : Prop :=
  ∀ j, 0 < j → j < l.length → Desc sp ((j - 1) / 2) →
    ¬ entryLt (eget l j) (eget l ((j - 1) / 2))

/-- The binary-heap ordering: every in-range non-root node is not smaller
than its parent. -/
def IsHeap (l : List Entry) : Prop :=
  ∀ j, 0 < j → j < l.length → ¬ entryLt (eget l j) (eget l ((j - 1) / 2))

/-- Data-model validity of a vehicle: positive capacity and a charge within
`[0, capacity]` (§3 of the specification). -/
def validVeh (v : Vehicle) : Prop :=
  0 < v.battery_capacity ∧ 0 ≤ v.current_charge ∧
    v.current_charge ≤ v.battery_capacity

instance (v : Vehicle) : Decidable (validVeh v) := by
  unfold validVeh
  infer_instance

/-- State of a `QueueManager` object (`queue_manager.py`): the heap list
`_queue`, the tie-breaking counter `_counter`, and the insertion-ordered
dict `_vehicle_positions` mapping vehicle id to its sequence counter. -/
structure QueueManager where
  queue : List Entry
  counter : ℕ
  vehicle_positions : List (String × ℕ)
deriving DecidableEq, Repr

/-- `QueueManager.__init__`. -/
def emptyQM : QueueManager := ⟨[], 0, []⟩

/-- Python dict lookup `m[k]` / `k in m` on the association list. -/
def posLookup (m : List (String × ℕ)) (k : String) : Option ℕ :=
  (m.find? (fun p => p.1 == k)).map (·.2)

/-- Python dict update `m[k] = c`: overwrite in place if present, else append
(dicts preserve insertion order). -/
def posInsert (m : List (String × ℕ)) (k : String) (c : ℕ) :
    List (String × ℕ) :=
  if (m.find? (fun p => p.1 == k)).isSome then
    m.map (fun p => if p.1 == k then (k, c) else p)
  else m ++ [(k, c)]

/-- Python dict deletion `del m[k]`. -/
def posErase (m : List (String × ℕ)) (k : String) : List (String × ℕ) :=
  m.filter (fun p => ¬ p.1 == k)

/-- `QueueManager.get_queue_position`: `-1` when the id is not in
`_vehicle_positions`, else the index of the first heap-array entry carrying
the recorded counter (`-1` if the scan falls through). -/
def QueueManager.get_queue_position (q : QueueManager) (vehicle : Vehicle) :
    ℤ :=
  match posLookup q.vehicle_positions vehicle.vehicle_id with
  | none => -1
  | some target =>
      match q.queue.findIdx? (fun e => e.counter == target) with
      | some i => (i : ℤ)
      | none => -1

/-- `QueueManager.add_vehicle`: push `(calculate_priority(v), counter, v)`,
record the counter under the vehicle id, bump the counter, and return
`get_queue_position(v)` on the new state. -/
def QueueManager.add_vehicle (q : QueueManager) (vehicle : Vehicle) :
    ℤ × QueueManager :=
  let q2 : QueueManager :=
    ⟨heappush q.queue ⟨vehicle.calculate_priority, q.counter, vehicle⟩,
     q.counter + 1,
     posInsert q.vehicle_positions vehicle.vehicle_id q.counter⟩
  (q2.get_queue_position vehicle, q2)

/-- `QueueManager.get_next_vehicle`: `None` on an empty queue; otherwise pop
the heap root, drop the id from `_vehicle_positions` when present, and
return the vehicle. -/
def QueueManager.get_next_vehicle (q : QueueManager) :
    Option Vehicle × QueueManager :=
  match heappop q.queue with
  | none => (none, q)
  | some (e, rest) =>
      (some e.vehicle,
       ⟨rest, q.counter,
        if (posLookup q.vehicle_positions e.vehicle.vehicle_id).isSome then
          posErase q.vehicle_positions e.vehicle.vehicle_id
        else q.vehicle_positions⟩)

/-- `QueueManager.peek_next_vehicle`: the root's vehicle, without mutation. -/
def QueueManager.peek_next_vehicle (q : QueueManager) : Option Vehicle :=
  match q.queue with
  | [] => none
  | e :: _ => some e.vehicle

/-- `QueueManager.remove_vehicle`: `False` when the id is not in
`_vehicle_positions`; else remove the first heap-array entry with that
vehicle id, re-`heapify`, and drop the dict entry (`False` if the scan finds
nothing, leaving everything unchanged). -/
def QueueManager.remove_vehicle (q : QueueManager) (vehicle : Vehicle) :
    Bool × QueueManager :=
  if (posLookup q.vehicle_positions vehicle.vehicle_id).isNone then (false, q)
  else
    match q.queue.findIdx? (fun e => e.vehicle.vehicle_id == vehicle.vehicle_id)
      with
    | none => (false, q)
    | some i =>
        (true,
         ⟨heapify (q.queue.eraseIdx i), q.counter,
          posErase q.vehicle_positions vehicle.vehicle_id⟩)

/-- Queue states reachable from a fresh `QueueManager` by any sequence of
`add_vehicle` (of data-model-valid vehicles), `get_next_vehicle` and
`remove_vehicle` calls. -/
inductive QReach : QueueManager → Prop where
  | init : QReach emptyQM
  | add {q : QueueManager} (v : Vehicle) : validVeh v → QReach q →
      QReach (q.add_vehicle v).2
  | next {q : QueueManager} : QReach q → QReach q.get_next_vehicle.2
  | rem {q : QueueManager} (v : Vehicle) : QReach q →
      QReach (q.remove_vehicle v).2

/-- Internal invariant of reachable queue states: the heap ordering holds,
every stored entry carries the priority computed from its (valid) vehicle at
insertion time, all stored counters are below the next counter, and counters
are pairwise distinct. -/
def QInv (q : QueueManager) : Prop :=
  IsHeap q.queue ∧
  (∀ e ∈ q.queue, e.counter < q.counter ∧
    e.priority = e.vehicle.calculate_priority ∧ validVeh e.vehicle) ∧
  (q.queue.map Entry.counter).Nodup

/-- Spec-side rank (§4.2): the number of queued entries whose sort key is
strictly less than the given entry's key. -/
def specRank (entries : List Entry) (e : Entry) : ℕ :=
  (entries.filter (fun f => decide (entryLt f e))).length

/-- Reserved Sedan, empty battery (priority 0). -/
def vehA : Vehicle := mkVehicle "AV-A" .SEDAN 60 0 true

/-- Unreserved Sedan, empty battery (priority 10). -/
def vehB : Vehicle := mkVehicle "AV-B" .SEDAN 60 0 false

/-- Reserved Sedan at half charge (priority 0). -/
def vehC : Vehicle := mkVehicle "AV-C" .SEDAN 60 30 true

/-- Queue after adding `vehA` to a fresh manager. -/
def demoQ1 : QueueManager := (emptyQM.add_vehicle vehA).2

/-- Queue after adding `vehA` then `vehB`: heap array
`[(0,0,A), (10,1,B)]`. -/
def demoQ2 : QueueManager := (demoQ1.add_vehicle vehB).2

/-- Spec-side helper for C1: multiply the energy cost by the peak multiplier
exactly when the peak flag is set. -/
def peakAdjust (x : ℚ) (p : Bool) (m : ℚ) : ℚ :=
  if p then x * m else x

/-- Spec-side helper for C1: add the connection fee. -/
def withFee (x fee : ℚ) : ℚ := x + fee

/-- Spec-side helper for C1: multiply the fee-inclusive total by 0.95 exactly
when the vehicle has a reservation. -/
def withDiscount (x : ℚ) (reserved : Bool) : ℚ :=
  if reserved then x * (95/100) else x

/-- Spec-side type modifier table from §4.1 of the specification:
Sedan 1, SUV 1, Truck 2, Bus 3. -/
def specTypeModifier : VehicleType → ℤ
  | .SEDAN => 1
  | .SUV => 1
  | .TRUCK => 2
  | .BUS => 3

/-- Concrete Sedan without reservation used in the billing examples. -/
def sedanPlain : Vehicle := mkVehicle "AV-EX1" .SEDAN 60 30 false

/-- Concrete Sedan with reservation used in the billing examples. -/
def sedanRes : Vehicle := mkVehicle "AV-EX2" .SEDAN 60 30 true

/-- C1: `calculate_cost` returns
`round2(withDiscount(withFee(peakAdjust(e * rate, p)), reservation)))` for
every billing state, vehicle, energy `e ≥ 0` and peak flag, and on the default
configuration the three spec examples evaluate to 8.00, 9.20 and 7.60. -/
theorem C1_calculate_cost (b : BillingState) (v : Vehicle) (e : ℚ) (p : Bool)
    (d : ℚ) (he : 0 ≤ e) :
    calculate_cost b v d e p =
      pyRound2 (withDiscount
        (withFee (peakAdjust (e * b.pricing_config v.vehicle_type) p
          b.peak_hour_multiplier) b.connection_fee) v.has_reservation) ∧
    initBilling.pricing_config .SEDAN = 3/10 ∧
    initBilling.connection_fee = 2 ∧
    initBilling.peak_hour_multiplier = 6/5 ∧
    calculate_cost initBilling sedanPlain d 20 false = 8 ∧
    calculate_cost initBilling sedanPlain d 20 true = 92/10 ∧
    calculate_cost initBilling sedanRes d 20 false = 76/10 := by
  refine ⟨rfl, rfl, rfl, rfl, ?_, ?_, ?_⟩ <;>
    simp [calculate_cost, initBilling, sedanPlain, sedanRes, mkVehicle,
      pyRound2, roundHalfEven] <;> norm_num

/-- C1 witness: the general equation instantiated at the default billing
state, the example Sedan, 20 kWh, peak, duration 0. -/
theorem C1_calculate_cost_witness :
    (0 : ℚ) ≤ 20 ∧
    (calculate_cost initBilling sedanPlain 0 20 true =
      pyRound2 (withDiscount
        (withFee (peakAdjust (20 * initBilling.pricing_config
          sedanPlain.vehicle_type) true initBilling.peak_hour_multiplier)
          initBilling.connection_fee) sedanPlain.has_reservation) ∧
      initBilling.pricing_config .SEDAN = 3/10 ∧
      initBilling.connection_fee = 2 ∧
      initBilling.peak_hour_multiplier = 6/5 ∧
      calculate_cost initBilling sedanPlain 0 20 false = 8 ∧
      calculate_cost initBilling sedanPlain 0 20 true = 92/10 ∧
      calculate_cost initBilling sedanRes 0 20 false = 76/10) :=
  ⟨by norm_num, C1_calculate_cost initBilling sedanPlain 20 true 0 (by norm_num)⟩

/-- C10: the cost returned by `calculate_cost` is completely independent of
the `duration` argument. -/
theorem C10_duration_independent (b : BillingState) (v : Vehicle) (e : ℚ)
    (p : Bool) (d1 d2 : ℚ) :
    calculate_cost b v d1 e p = calculate_cost b v d2 e p := rfl

/-- C3: on every slot state reachable from a fresh slot by
`assign_vehicle` / `release_vehicle` / `simulate_charging`, a vehicle is bound
if and only if the slot is not available. -/
theorem C3_slot_invariant {s : ChargingSlot} (hs : SlotReach s) :
    s.current_vehicle ≠ none ↔ s.is_available = false := by
  induction hs with
  | init slot_id power_rating => simp [mkSlot]
  | assign v now _ ih =>
      rename_i s' _
      unfold ChargingSlot.assign_vehicle
      rcases hav : s'.is_available with _ | _ <;> simp_all
  | release now _ ih =>
      rename_i s' _
      unfold ChargingSlot.release_vehicle
      rcases hcv : s'.current_vehicle with _ | v <;> simp_all
  | tick d _ ih =>
      rename_i s' _
      unfold ChargingSlot.simulate_charging
      rcases hcv : s'.current_vehicle with _ | v <;> simp_all

/-- C3 witness: a concrete reachable slot (fresh slot, one assignment) on
which the invariant is checked. -/
theorem C3_slot_invariant_witness :
    SlotReach ((mkSlot "SLOT-1" 10).assign_vehicle sedanPlain 0).2 ∧
    (((mkSlot "SLOT-1" 10).assign_vehicle sedanPlain 0).2.current_vehicle ≠
        none ↔
      ((mkSlot "SLOT-1" 10).assign_vehicle sedanPlain 0).2.is_available =
        false) :=
  ⟨SlotReach.assign sedanPlain 0 (SlotReach.init "SLOT-1" 10),
   C3_slot_invariant (SlotReach.assign sedanPlain 0 (SlotReach.init "SLOT-1" 10))⟩

/-- C4 counterexample: the claim says `update_charge` enforces
`0 ≤ charge ≤ capacity` by clamping for every amount argument, but a negative
amount drives the charge below zero: a valid Sedan at charge 0 updated by
`-1` ends at charge `-1`. -/
theorem C4_counterexample :
    ((mkVehicle "AV-NEG" .SEDAN 60 0 false).update_charge (-1)).current_charge
      < 0 := by
  simp [mkVehicle, Vehicle.update_charge]

/-- C4 amended: `update_charge` clamps only at the top: the result never
exceeds capacity for any amount, and the full invariant `0 ≤ charge ≤
capacity` is preserved provided the amount is nonnegative (as on the
station's tick path) and the vehicle was valid. -/
theorem C4_update_charge_clamp (v : Vehicle) (amount : ℚ)
    (hcap : 0 ≤ v.battery_capacity) (h0 : 0 ≤ v.current_charge)
    (ha : 0 ≤ amount) :
    (0 ≤ (v.update_charge amount).current_charge ∧
      (v.update_charge amount).current_charge ≤ v.battery_capacity) ∧
    (∀ a2 : ℚ, (v.update_charge a2).current_charge ≤ v.battery_capacity) := by
  refine ⟨⟨?_, ?_⟩, fun a2 => ?_⟩
  · simp only [Vehicle.update_charge]
    exact le_min (by linarith) hcap
  · simp only [Vehicle.update_charge]
    exact min_le_right _ _
  · simp only [Vehicle.update_charge]
    exact min_le_right _ _

/-- C4 amended witness: the clamp at capacity and the preserved invariant on
a concrete valid vehicle and amount. -/
theorem C4_update_charge_clamp_witness :
    ((0 ≤ (sedanPlain.update_charge 50).current_charge ∧
        (sedanPlain.update_charge 50).current_charge ≤
          sedanPlain.battery_capacity) ∧
      ∀ a2 : ℚ, (sedanPlain.update_charge a2).current_charge ≤
        sedanPlain.battery_capacity) :=
  C4_update_charge_clamp sedanPlain 50 (by norm_num [sedanPlain, mkVehicle])
    (by norm_num [sedanPlain, mkVehicle]) (by norm_num)

/-- C6 counterexample: the claim says `release_vehicle` resets the slot's
accumulated session energy, but after delivering 10 kWh and releasing, the
slot's `total_power_consumed` is still 10, not 0. -/
theorem C6_counterexample :
    (demoChargedSlot.release_vehicle 7).2.total_power_consumed = 10 ∧
    ¬ (demoChargedSlot.release_vehicle 7).2.total_power_consumed = 0 := by
  constructor <;>
    · simp [demoChargedSlot, mkSlot, mkVehicle, ChargingSlot.assign_vehicle,
        ChargingSlot.simulate_charging, ChargingSlot.release_vehicle,
        Vehicle.get_required_charge, Vehicle.update_charge]
      norm_num

/-- C6 amended: on an occupied slot, `release_vehicle` stamps the end time on
the vehicle, detaches it, marks the slot available, clears the slot's start
timestamp, and returns the vehicle — while leaving `total_power_consumed`
unchanged (it is a lifetime accumulator, never reset); on an empty slot it
returns `none` and changes nothing. -/
theorem C6_release_vehicle (s : ChargingSlot) (now : ℕ) :
    (s.current_vehicle = none → s.release_vehicle now = (none, s)) ∧
    (∀ v, s.current_vehicle = some v →
      s.release_vehicle now =
        (some { v with charging_end_time := some now },
         { s with
            current_vehicle := none
            is_available := true
            charging_start_time := none })) ∧
    (s.release_vehicle now).2.total_power_consumed = s.total_power_consumed := by
  refine ⟨fun h => ?_, fun v h => ?_, ?_⟩
  · simp [ChargingSlot.release_vehicle, h]
  · simp [ChargingSlot.release_vehicle, h]
  · unfold ChargingSlot.release_vehicle
    rcases s.current_vehicle with _ | v <;> simp

/-- C6 amended witness: the characterization applied to the concrete occupied
slot `demoChargedSlot`. -/
theorem C6_release_vehicle_witness :
    (demoChargedSlot.release_vehicle 7).2.total_power_consumed =
      demoChargedSlot.total_power_consumed :=
  (C6_release_vehicle demoChargedSlot 7).2.2

/-- C7: `calculate_priority` is 0 for reserved vehicles and otherwise
`⌊charge percentage⌋ + typeModifier * 10` with the spec's modifier table,
under the data-model precondition `capacity > 0`, `0 ≤ charge ≤ capacity`. -/
theorem C7_calculate_priority (v : Vehicle) (hcap : 0 < v.battery_capacity)
    (h0 : 0 ≤ v.current_charge)
    (h1 : v.current_charge ≤ v.battery_capacity) :
    v.calculate_priority =
      if v.has_reservation then 0
      else ⌊v.get_charge_percentage⌋ + specTypeModifier v.vehicle_type * 10 := by
  unfold Vehicle.calculate_priority
  rcases hres : v.has_reservation with _ | _
  · simp only [Bool.false_eq_true, if_false]
    have hpct : 0 ≤ v.get_charge_percentage := by
      unfold Vehicle.get_charge_percentage
      have := div_nonneg h0 (le_of_lt hcap)
      linarith
    rw [pyTrunc, if_pos hpct]
    rcases v.vehicle_type <;>
      simp [VehicleType.priority_modifier, specTypeModifier]
  · simp

/-- C7 witness: a 30 kWh Sedan at half charge has priority
`⌊50⌋ + 1 * 10 = 60`. -/
theorem C7_calculate_priority_witness :
    (0 : ℚ) < sedanPlain.battery_capacity ∧
    (0 : ℚ) ≤ sedanPlain.current_charge ∧
    sedanPlain.current_charge ≤ sedanPlain.battery_capacity ∧
    sedanPlain.calculate_priority =
      (if sedanPlain.has_reservation then 0
       else ⌊sedanPlain.get_charge_percentage⌋ +
        specTypeModifier sedanPlain.vehicle_type * 10) := by
  refine ⟨by norm_num [sedanPlain, mkVehicle],
    by norm_num [sedanPlain, mkVehicle],
    by norm_num [sedanPlain, mkVehicle], ?_⟩
  exact C7_calculate_priority sedanPlain (by norm_num [sedanPlain, mkVehicle])
    (by norm_num [sedanPlain, mkVehicle]) (by norm_num [sedanPlain, mkVehicle])

/-- C8: `simulate_charging` on an occupied slot (with the occupancy
invariant) delivers `min(power * duration, required charge)`, adds it to the
vehicle's charge clamped at capacity, accumulates it into the slot total and
returns it; on an available slot it returns zero and changes nothing. -/
theorem C8_simulate_charging (s : ChargingSlot) (d : ℚ) (hd : 0 ≤ d)
    (hinv : s.current_vehicle = none ↔ s.is_available = true) :
    (s.is_available = false →
      ∃ v, s.current_vehicle = some v ∧
        s.simulate_charging d =
          (min (s.power_rating * d) v.get_required_charge,
           { s with
              current_vehicle := some
                (v.update_charge (min (s.power_rating * d)
                  v.get_required_charge))
              total_power_consumed := s.total_power_consumed +
                min (s.power_rating * d) v.get_required_charge }) ∧
        (v.update_charge (min (s.power_rating * d)
            v.get_required_charge)).current_charge =
          min (v.current_charge + min (s.power_rating * d)
            v.get_required_charge) v.battery_capacity) ∧
    (s.is_available = true → s.simulate_charging d = (0, s)) := by
  constructor
  · intro hocc
    rcases hcv : s.current_vehicle with _ | v
    · rw [hinv.mp hcv] at hocc
      cases hocc
    · exact ⟨v, rfl, by simp [ChargingSlot.simulate_charging, hcv], rfl⟩
  · intro hav
    have hcv : s.current_vehicle = none := by
      rcases hcv : s.current_vehicle with _ | v
      · rfl
      · have := hinv.mpr hav
        rw [hcv] at this
        cases this
    simp [ChargingSlot.simulate_charging, hcv]

/-- C8 witness: the occupied branch on the concrete charged slot (0.5 h on a
10 kW slot, vehicle needs 50 kWh, delivers 5 kWh). -/
theorem C8_simulate_charging_witness :
    (0 : ℚ) ≤ 1/2 ∧
    (demoChargedSlot.current_vehicle = none ↔
      demoChargedSlot.is_available = true) ∧
    (demoChargedSlot.is_available = false →
      ∃ v, demoChargedSlot.current_vehicle = some v ∧
        demoChargedSlot.simulate_charging (1/2) =
          (min (demoChargedSlot.power_rating * (1/2)) v.get_required_charge,
           { demoChargedSlot with
              current_vehicle := some
                (v.update_charge (min (demoChargedSlot.power_rating * (1/2))
                  v.get_required_charge))
              total_power_consumed := demoChargedSlot.total_power_consumed +
                min (demoChargedSlot.power_rating * (1/2))
                  v.get_required_charge }) ∧
        (v.update_charge (min (demoChargedSlot.power_rating * (1/2))
            v.get_required_charge)).current_charge =
          min (v.current_charge + min (demoChargedSlot.power_rating * (1/2))
            v.get_required_charge) v.battery_capacity) := by
  have hinv : demoChargedSlot.current_vehicle = none ↔
      demoChargedSlot.is_available = true := by
    simp [demoChargedSlot, mkSlot, mkVehicle, ChargingSlot.assign_vehicle,
      ChargingSlot.simulate_charging]
  exact ⟨by norm_num, hinv,
    (C8_simulate_charging demoChargedSlot (1/2) (by norm_num) hinv).1⟩

/-- C9: `process_payment` fails with no state change on `amount ≤ 0`, adds
exactly the amount to revenue and succeeds on `amount > 0`, and
`generate_invoice` never changes `total_revenue`. -/
theorem C9_process_payment (b : BillingState) (v : Vehicle) (a : ℚ) :
    (a ≤ 0 → process_payment b v a = (false, b)) ∧
    (0 < a → process_payment b v a =
      (true, { b with total_revenue := b.total_revenue + a })) ∧
    (∀ (d e : ℚ) (p : Bool),
      (generate_invoice b v d e p).2.total_revenue = b.total_revenue) := by
  refine ⟨fun h => ?_, fun h => ?_, fun d e p => rfl⟩
  · simp [process_payment, h]
  · rw [process_payment, if_neg (by linarith)]

/-- C9 witness: a failed zero payment and a successful positive payment on
the default billing state. -/
theorem C9_process_payment_witness :
    ((0 : ℚ) ≤ 0 → process_payment initBilling sedanPlain 0 =
      (false, initBilling)) ∧
    ((0 : ℚ) < 8 → process_payment initBilling sedanPlain 8 =
      (true, { initBilling with
                total_revenue := initBilling.total_revenue + 8 })) ∧
    (∀ (d e : ℚ) (p : Bool),
      (generate_invoice initBilling sedanPlain d e p).2.total_revenue =
        initBilling.total_revenue) :=
  ⟨(C9_process_payment initBilling sedanPlain 0).1,
   (C9_process_payment initBilling sedanPlain 8).2.1,
   (C9_process_payment initBilling sedanPlain 8).2.2⟩

lemma entryLt_irrefl (a : Entry) : ¬ entryLt a a := by
  unfold entryLt Vehicle.lt
  omega

lemma entryLt_asymm {a b : Entry} : entryLt a b → ¬ entryLt b a := by
  unfold entryLt Vehicle.lt
  omega

lemma entryLt_trans {a b c : Entry} :
    entryLt a b → entryLt b c → entryLt a c := by
  unfold entryLt Vehicle.lt
  omega

lemma not_entryLt_trans {a b c : Entry} :
    ¬ entryLt b a → ¬ entryLt c b → ¬ entryLt c a := by
  unfold entryLt Vehicle.lt
  omega

lemma not_entryLt_of_lt_of_not_lt {a b c : Entry} :
    entryLt a b → ¬ entryLt c b → ¬ entryLt c a := by
  intro hab hcb hca
  exact hcb (entryLt_trans hca hab)

lemma eget_set_self (l : List Entry) (i : ℕ) (a : Entry)
    (h : i < l.length) : eget (l.set i a) i = a := by
  induction l generalizing i with
  | nil => simp at h
  | cons x xs ih =>
      cases i with
      | zero => simp [eget]
      | succ i =>
          simp only [List.set_cons_succ, eget, List.getD_cons_succ]
          exact ih i (by simpa using h)

lemma eget_set_ne (l : List Entry) (i j : ℕ) (a : Entry)
    (h : i ≠ j) : eget (l.set i a) j = eget l j := by
  induction l generalizing i j with
  | nil => simp [eget]
  | cons x xs ih =>
      cases i with
      | zero =>
          cases j with
          | zero => exact absurd rfl h
          | succ j => simp [eget]
      | succ i =>
          cases j with
          | zero => simp [eget]
          | succ j =>
              simp only [List.set_cons_succ, eget, List.getD_cons_succ]
              exact ih i j (by omega)

lemma eget_append_left (l l2 : List Entry) (j : ℕ) (h : j < l.length) :
    eget (l ++ l2) j = eget l j := by
  induction l generalizing j with
  | nil => simp at h
  | cons x xs ih =>
      cases j with
      | zero => simp [eget]
      | succ j =>
          simp only [List.cons_append, eget, List.getD_cons_succ]
          exact ih j (by simpa using h)

lemma eget_append_last (l : List Entry) (a : Entry) :
    eget (l ++ [a]) l.length = a := by
  induction l with
  | nil => simp [eget]
  | cons x xs ih =>
      simpa [eget, List.getD_cons_succ] using ih

lemma eget_dropLast (l : List Entry) (j : ℕ) (h : j < l.length - 1) :
    eget l.dropLast j = eget l j := by
  induction l generalizing j with
  | nil => simp [eget]
  | cons x xs ih =>
      cases xs with
      | nil => simp at h
      | cons y ys =>
          cases j with
          | zero => simp [eget]
          | succ j =>
              simp only [List.dropLast_cons₂, eget, List.getD_cons_succ]
              exact ih j (by simp at h ⊢; omega)

lemma eget_mem (l : List Entry) (i : ℕ) (h : i < l.length) :
    eget l i ∈ l := by
  induction l generalizing i with
  | nil => simp at h
  | cons x xs ih =>
      cases i with
      | zero => simp [eget]
      | succ i =>
          simp only [eget, List.getD_cons_succ]
          exact List.mem_cons_of_mem x (ih i (by simpa using h))

lemma mem_eget (l : List Entry) (e : Entry) (h : e ∈ l) :
    ∃ i, i < l.length ∧ eget l i = e := by
  induction l with
  | nil => simp at h
  | cons x xs ih =>
      rcases List.mem_cons.mp h with rfl | hx
      · exact ⟨0, by simp, by simp [eget]⟩
      · obtain ⟨i, hi, he⟩ := ih hx
        exact ⟨i + 1, by simpa using Nat.succ_lt_succ hi,
          by simpa [eget, List.getD_cons_succ] using he⟩

lemma mset_set (l : List Entry) (i : ℕ) (a : Entry) (h : i < l.length) :
    ((l.set i a : List Entry) : Multiset Entry) + {eget l i} =
      (l : Multiset Entry) + {a} := by
  induction l generalizing i with
  | nil => simp at h
  | cons x xs ih =>
      cases i with
      | zero =>
          show ((a :: xs : List Entry) : Multiset Entry) + {x} =
            ((x :: xs : List Entry) : Multiset Entry) + {a}
          simp only [← Multiset.cons_coe]
          rw [add_comm, add_comm (x ::ₘ (xs : Multiset Entry)),
            Multiset.singleton_add, Multiset.singleton_add]
          exact Multiset.cons_swap x a (xs : Multiset Entry)
      | succ i =>
          have hxs : i < xs.length := by simpa using h
          show ((x :: xs.set i a : List Entry) : Multiset Entry) +
              {eget xs i} =
            ((x :: xs : List Entry) : Multiset Entry) + {a}
          simp only [← Multiset.cons_coe, Multiset.cons_add]
          rw [ih i hxs]

lemma mset_eraseIdx (l : List Entry) (i : ℕ) (h : i < l.length) :
    ((l.eraseIdx i : List Entry) : Multiset Entry) + {eget l i} =
      (l : Multiset Entry) := by
  induction l generalizing i with
  | nil => simp at h
  | cons x xs ih =>
      cases i with
      | zero =>
          show (xs : Multiset Entry) + {x} =
            ((x :: xs : List Entry) : Multiset Entry)
          rw [add_comm, Multiset.singleton_add, Multiset.cons_coe]
      | succ i =>
          have hxs : i < xs.length := by simpa using h
          show ((x :: xs.eraseIdx i : List Entry) : Multiset Entry) +
              {eget xs i} = ((x :: xs : List Entry) : Multiset Entry)
          simp only [← Multiset.cons_coe, Multiset.cons_add]
          rw [ih i hxs]

lemma mset_dropLast (l : List Entry) (h0 : l ≠ []) :
    (l.dropLast : Multiset Entry) + {l.getLast h0} = (l : Multiset Entry) := by
  conv_rhs => rw [← List.dropLast_append_getLast h0]
  rw [add_comm, Multiset.singleton_add, Multiset.cons_coe]
  exact Multiset.coe_eq_coe.mpr ((List.perm_append_singleton _ _).symm)

lemma Desc.le {r j : ℕ} (h : Desc r j) : r ≤ j := by
  induction h with
  | refl => exact le_refl _
  | child k _ hk ih => omega

lemma Desc.up {r j : ℕ} (h : Desc r j) (hne : j ≠ r) :
    0 < j ∧ Desc r ((j - 1) / 2) := by
  induction h with
  | refl => exact absurd rfl hne
  | child k hd hk ih =>
      rename_i j'
      refine ⟨by omega, ?_⟩
      have hkj : (k - 1) / 2 = j' := by omega
      rw [hkj]
      exact hd

lemma Desc.zero (j : ℕ) : Desc 0 j := by
  induction j using Nat.strong_induction_on with
  | _ j ih =>
      cases j with
      | zero => exact Desc.refl 0
      | succ n =>
          have hp : Desc 0 ((n + 1 - 1) / 2) := ih _ (by omega)
          exact Desc.child (n + 1) hp (by omega)

lemma siftdown_spec (sp : ℕ) (newitem : Entry) :
    ∀ pos (h : List Entry), pos < h.length → Desc sp pos →
    (∀ j, 0 < j → j < h.length → j ≠ pos → (j - 1) / 2 ≠ pos →
      Desc sp ((j - 1) / 2) → ¬ entryLt (eget h j) (eget h ((j - 1) / 2))) →
    (∀ j, 0 < j → j < h.length → (j - 1) / 2 = pos →
      ¬ entryLt (eget h j) newitem) →
    (sp ≠ pos → ∀ j, 0 < j → j < h.length → (j - 1) / 2 = pos →
      ¬ entryLt (eget h j) (eget h ((pos - 1) / 2))) →
    (siftdownAux h newitem sp pos).length = h.length ∧
    (∀ q, ¬ Desc sp q → eget (siftdownAux h newitem sp pos) q = eget h q) ∧
    HeapAt (siftdownAux h newitem sp pos) sp ∧
    ((siftdownAux h newitem sp pos : Multiset Entry) + {eget h pos} =
      (h : Multiset Entry) + {newitem}) := by
  intro pos
  induction pos using Nat.strong_induction_on with
  | _ pos IH =>
    intro h hlen hdesc hA1 hA2a hA2b
    have hsple : sp ≤ pos := hdesc.le
    rw [siftdownAux]
    split_ifs with hguard hlt
    · -- moving the parent down and recursing at the parent position
      have hppltpos : (pos - 1) / 2 < pos := by omega
      have hlenset : (h.set pos (eget h ((pos - 1) / 2))).length = h.length :=
        List.length_set h pos _
      have hdpp : Desc sp ((pos - 1) / 2) := (hdesc.up (by omega)).2
      have hA1' : ∀ j, 0 < j →
          j < (h.set pos (eget h ((pos - 1) / 2))).length →
          j ≠ (pos - 1) / 2 → (j - 1) / 2 ≠ (pos - 1) / 2 →
          Desc sp ((j - 1) / 2) →
          ¬ entryLt (eget (h.set pos (eget h ((pos - 1) / 2))) j)
            (eget (h.set pos (eget h ((pos - 1) / 2))) ((j - 1) / 2)) := by
        intro j hj0 hjlen hjpp hpjpp hdescj
        rw [hlenset] at hjlen
        by_cases hpjpos : (j - 1) / 2 = pos
        · have hjpos : j ≠ pos := by omega
          rw [eget_set_ne h pos j (eget h ((pos - 1) / 2)) (by omega),
            hpjpos, eget_set_self h pos (eget h ((pos - 1) / 2)) hlen]
          exact hA2b (by omega) j hj0 hjlen hpjpos
        · by_cases hjpos : j = pos
          · exact absurd (by rw [hjpos]) hpjpp
          · rw [eget_set_ne h pos j (eget h ((pos - 1) / 2)) (by omega),
              eget_set_ne h pos ((j - 1) / 2) (eget h ((pos - 1) / 2))
                (by omega)]
            exact hA1 j hj0 hjlen hjpos hpjpos hdescj
      have hA2a' : ∀ j, 0 < j →
          j < (h.set pos (eget h ((pos - 1) / 2))).length →
          (j - 1) / 2 = (pos - 1) / 2 →
          ¬ entryLt (eget (h.set pos (eget h ((pos - 1) / 2))) j) newitem := by
        intro j hj0 hjlen hpj
        rw [hlenset] at hjlen
        by_cases hjpos : j = pos
        · rw [hjpos, eget_set_self h pos (eget h ((pos - 1) / 2)) hlen]
          exact entryLt_asymm hlt
        · rw [eget_set_ne h pos j (eget h ((pos - 1) / 2)) (by omega)]
          have hnj : ¬ entryLt (eget h j) (eget h ((pos - 1) / 2)) := by
            have hx := hA1 j hj0 hjlen hjpos (by omega)
              (by rw [hpj]; exact hdpp)
            rwa [hpj] at hx
          exact not_entryLt_of_lt_of_not_lt hlt hnj
      have hA2b' : sp ≠ (pos - 1) / 2 → ∀ j, 0 < j →
          j < (h.set pos (eget h ((pos - 1) / 2))).length →
          (j - 1) / 2 = (pos - 1) / 2 →
          ¬ entryLt (eget (h.set pos (eget h ((pos - 1) / 2))) j)
            (eget (h.set pos (eget h ((pos - 1) / 2)))
              (((pos - 1) / 2 - 1) / 2)) := by
        intro hsppp j hj0 hjlen hpj
        rw [hlenset] at hjlen
        have hdpple : sp ≤ (pos - 1) / 2 := hdpp.le
        have hpp0 : 0 < (pos - 1) / 2 := by omega
        have hdgp : Desc sp (((pos - 1) / 2 - 1) / 2) :=
          (hdpp.up (by omega)).2
        have hppp : ¬ entryLt (eget h ((pos - 1) / 2))
            (eget h (((pos - 1) / 2 - 1) / 2)) :=
          hA1 ((pos - 1) / 2) hpp0 (by omega) (by omega) (by omega) hdgp
        rw [eget_set_ne h pos (((pos - 1) / 2 - 1) / 2)
          (eget h ((pos - 1) / 2)) (by omega)]
        by_cases hjpos : j = pos
        · rw [hjpos, eget_set_self h pos (eget h ((pos - 1) / 2)) hlen]
          exact hppp
        · rw [eget_set_ne h pos j (eget h ((pos - 1) / 2)) (by omega)]
          have h1 : ¬ entryLt (eget h j) (eget h ((pos - 1) / 2)) := by
            have hx := hA1 j hj0 hjlen hjpos (by omega)
              (by rw [hpj]; exact hdpp)
            rwa [hpj] at hx
          exact not_entryLt_trans hppp h1
      obtain ⟨ih1, ih2, ih3, ih4⟩ := IH ((pos - 1) / 2) hppltpos
        (h.set pos (eget h ((pos - 1) / 2))) (by rw [hlenset]; omega)
        hdpp hA1' hA2a' hA2b'
      refine ⟨by rw [ih1, hlenset], ?_, ih3, ?_⟩
      · intro q hq
        rw [ih2 q hq,
          eget_set_ne h pos q (eget h ((pos - 1) / 2))
            (fun he => hq (he ▸ hdesc))]
      · rw [eget_set_ne h pos ((pos - 1) / 2) (eget h ((pos - 1) / 2))
          (by omega)] at ih4
        have e2 := mset_set h pos (eget h ((pos - 1) / 2)) hlen
        have hcancel :
            (siftdownAux (h.set pos (eget h ((pos - 1) / 2))) newitem sp
                ((pos - 1) / 2) : Multiset Entry) + {eget h pos} +
              {eget h ((pos - 1) / 2)} =
            (h : Multiset Entry) + {newitem} + {eget h ((pos - 1) / 2)} := by
          calc (siftdownAux (h.set pos (eget h ((pos - 1) / 2))) newitem sp
                  ((pos - 1) / 2) : Multiset Entry) + {eget h pos} +
                {eget h ((pos - 1) / 2)}
              = (siftdownAux (h.set pos (eget h ((pos - 1) / 2))) newitem sp
                  ((pos - 1) / 2) : Multiset Entry) +
                  {eget h ((pos - 1) / 2)} + {eget h pos} :=
                add_right_comm _ _ _
            _ = ((h.set pos (eget h ((pos - 1) / 2)) : List Entry) :
                  Multiset Entry) + {newitem} + {eget h pos} := by rw [ih4]
            _ = ((h.set pos (eget h ((pos - 1) / 2)) : List Entry) :
                  Multiset Entry) + {eget h pos} + {newitem} :=
                add_right_comm _ _ _
            _ = (h : Multiset Entry) + {eget h ((pos - 1) / 2)} +
                  {newitem} := by rw [e2]
            _ = (h : Multiset Entry) + {newitem} +
                  {eget h ((pos - 1) / 2)} := add_right_comm _ _ _
        exact add_right_cancel hcancel
    · -- newitem not smaller than the parent: place it at pos
      refine ⟨List.length_set h pos newitem, ?_, ?_, mset_set h pos newitem hlen⟩
      · intro q hq
        exact eget_set_ne h pos q newitem (fun he => hq (he ▸ hdesc))
      · intro j hj0 hjlen hdescj
        rw [List.length_set] at hjlen
        by_cases hpj : (j - 1) / 2 = pos
        · have hjne : j ≠ pos := by omega
          rw [eget_set_ne h pos j newitem (by omega), hpj,
            eget_set_self h pos newitem hlen]
          exact hA2a j hj0 hjlen hpj
        · by_cases hjpos : j = pos
          · rw [hjpos, eget_set_self h pos newitem hlen,
              eget_set_ne h pos ((pos - 1) / 2) newitem (by omega)]
            exact hlt
          · rw [eget_set_ne h pos j newitem (by omega),
              eget_set_ne h pos ((j - 1) / 2) newitem (by omega)]
            exact hA1 j hj0 hjlen hjpos hpj hdescj
    · -- pos = sp: place newitem at the subtree root
      have hpossp : pos = sp := by omega
      refine ⟨List.length_set h pos newitem, ?_, ?_, mset_set h pos newitem hlen⟩
      · intro q hq
        exact eget_set_ne h pos q newitem (fun he => hq (he ▸ hdesc))
      · intro j hj0 hjlen hdescj
        rw [List.length_set] at hjlen
        by_cases hpj : (j - 1) / 2 = pos
        · have hjne : j ≠ pos := by omega
          rw [eget_set_ne h pos j newitem (by omega), hpj,
            eget_set_self h pos newitem hlen]
          exact hA2a j hj0 hjlen hpj
        · have hjne : j ≠ pos := by
            have := hdescj.le
            omega
          rw [eget_set_ne h pos j newitem (by omega),
            eget_set_ne h pos ((j - 1) / 2) newitem (by omega)]
          exact hA1 j hj0 hjlen hjne hpj hdescj

lemma siftup_spec (sp : ℕ) (newitem : Entry) :
    ∀ (n pos : ℕ) (h : List Entry), h.length - pos = n → pos < h.length →
    Desc sp pos →
    (∀ j, 0 < j → j < h.length → Desc sp ((j - 1) / 2) →
      (j - 1) / 2 ≠ pos → ¬ entryLt (eget h j) (eget h ((j - 1) / 2))) →
    (sp ≠ pos → ∀ j, 0 < j → j < h.length → (j - 1) / 2 = pos →
      ¬ entryLt (eget h j) (eget h ((pos - 1) / 2))) →
    (siftupAux h newitem sp pos).length = h.length ∧
    (∀ q, ¬ Desc sp q → eget (siftupAux h newitem sp pos) q = eget h q) ∧
    HeapAt (siftupAux h newitem sp pos) sp ∧
    ((siftupAux h newitem sp pos : Multiset Entry) + {eget h pos} =
      (h : Multiset Entry) + {newitem}) := by
  intro n
  induction n using Nat.strong_induction_on with
  | _ n IH =>
    intro pos h hn hlen hdesc hU1 hU2
    have keyStep : ∀ cp, (cp = 2 * pos + 1 ∨ cp = 2 * pos + 2) →
        cp < h.length →
        (∀ s, (s = 2 * pos + 1 ∨ s = 2 * pos + 2) → s < h.length → s ≠ cp →
          ¬ entryLt (eget h s) (eget h cp)) →
        (siftupAux (h.set pos (eget h cp)) newitem sp cp).length = h.length ∧
        (∀ q, ¬ Desc sp q →
          eget (siftupAux (h.set pos (eget h cp)) newitem sp cp) q =
            eget h q) ∧
        HeapAt (siftupAux (h.set pos (eget h cp)) newitem sp cp) sp ∧
        ((siftupAux (h.set pos (eget h cp)) newitem sp cp : Multiset Entry) +
          {eget h pos} = (h : Multiset Entry) + {newitem}) := by
      intro cp hcp hcplen hsmaller
      have hcppos : pos < cp := by omega
      have hlenset : (h.set pos (eget h cp)).length = h.length :=
        List.length_set h pos _
      have hdesccp : Desc sp cp := Desc.child cp hdesc hcp
      have hU1' : ∀ j, 0 < j → j < (h.set pos (eget h cp)).length →
          Desc sp ((j - 1) / 2) → (j - 1) / 2 ≠ cp →
          ¬ entryLt (eget (h.set pos (eget h cp)) j)
            (eget (h.set pos (eget h cp)) ((j - 1) / 2)) := by
        intro j hj0 hjlen hdescj hpjcp
        rw [hlenset] at hjlen
        by_cases hpjpos : (j - 1) / 2 = pos
        · rw [hpjpos, eget_set_self h pos (eget h cp) hlen]
          by_cases hjcp : j = cp
          · rw [hjcp, eget_set_ne h pos cp (eget h cp) (by omega)]
            exact entryLt_irrefl _
          · rw [eget_set_ne h pos j (eget h cp) (by omega)]
            exact hsmaller j (by omega) hjlen hjcp
        · by_cases hjpos : j = pos
          · have hsp_ne : sp ≠ pos := by
              have := hdescj.le
              omega
            rw [hjpos, eget_set_self h pos (eget h cp) hlen,
              eget_set_ne h pos ((pos - 1) / 2) (eget h cp) (by omega)]
            exact hU2 hsp_ne cp (by omega) hcplen (by omega)
          · rw [eget_set_ne h pos j (eget h cp) (by omega),
              eget_set_ne h pos ((j - 1) / 2) (eget h cp) (by omega)]
            exact hU1 j hj0 hjlen hdescj hpjpos
      have hU2' : sp ≠ cp → ∀ j, 0 < j →
          j < (h.set pos (eget h cp)).length → (j - 1) / 2 = cp →
          ¬ entryLt (eget (h.set pos (eget h cp)) j)
            (eget (h.set pos (eget h cp)) ((cp - 1) / 2)) := by
        intro hspcp j hj0 hjlen hpj
        rw [hlenset] at hjlen
        have hcppar : (cp - 1) / 2 = pos := by omega
        rw [hcppar, eget_set_self h pos (eget h cp) hlen,
          eget_set_ne h pos j (eget h cp) (by omega)]
        have hx := hU1 j hj0 hjlen (by rw [hpj]; exact hdesccp) (by omega)
        rwa [hpj] at hx
      obtain ⟨ih1, ih2, ih3, ih4⟩ := IH (h.length - cp) (by omega) cp
        (h.set pos (eget h cp)) (by rw [hlenset]) (by rw [hlenset]; omega)
        hdesccp hU1' hU2'
      refine ⟨by rw [ih1, hlenset], ?_, ih3, ?_⟩
      · intro q hq
        rw [ih2 q hq,
          eget_set_ne h pos q (eget h cp) (fun he => hq (he ▸ hdesc))]
      · rw [eget_set_ne h pos cp (eget h cp) (by omega)] at ih4
        have e2 := mset_set h pos (eget h cp) hlen
        have hcancel :
            (siftupAux (h.set pos (eget h cp)) newitem sp cp :
                Multiset Entry) + {eget h pos} + {eget h cp} =
            (h : Multiset Entry) + {newitem} + {eget h cp} := by
          calc (siftupAux (h.set pos (eget h cp)) newitem sp cp :
                  Multiset Entry) + {eget h pos} + {eget h cp}
              = (siftupAux (h.set pos (eget h cp)) newitem sp cp :
                  Multiset Entry) + {eget h cp} + {eget h pos} :=
                add_right_comm _ _ _
            _ = ((h.set pos (eget h cp) : List Entry) : Multiset Entry) +
                  {newitem} + {eget h pos} := by rw [ih4]
            _ = ((h.set pos (eget h cp) : List Entry) : Multiset Entry) +
                  {eget h pos} + {newitem} := add_right_comm _ _ _
            _ = (h : Multiset Entry) + {eget h cp} + {newitem} := by rw [e2]
            _ = (h : Multiset Entry) + {newitem} + {eget h cp} :=
                add_right_comm _ _ _
        exact add_right_cancel hcancel
    rw [siftupAux]
    split_ifs with hc hr
    · exact keyStep (2 * pos + 2) (Or.inr rfl) hr.1
        (fun s hs hslen hsne => by
          have hs1 : s = 2 * pos + 1 := by omega
          rw [hs1]
          exact hr.2)
    · refine keyStep (2 * pos + 1) (Or.inl rfl) hc
        (fun s hs hslen hsne => ?_)
      have hs2 : s = 2 * pos + 2 := by omega
      subst hs2
      have hlt : entryLt (eget h (2 * pos + 1)) (eget h (2 * pos + 2)) := by
        by_contra hno
        exact hr ⟨hslen, hno⟩
      exact entryLt_asymm hlt
    · -- leaf: place newitem at pos and bubble it up
      have hlenset : (h.set pos newitem).length = h.length :=
        List.length_set h pos _
      have hA1 : ∀ j, 0 < j → j < (h.set pos newitem).length → j ≠ pos →
          (j - 1) / 2 ≠ pos → Desc sp ((j - 1) / 2) →
          ¬ entryLt (eget (h.set pos newitem) j)
            (eget (h.set pos newitem) ((j - 1) / 2)) := by
        intro j hj0 hjlen hjpos hpjpos hdescj
        rw [hlenset] at hjlen
        rw [eget_set_ne h pos j newitem (by omega),
          eget_set_ne h pos ((j - 1) / 2) newitem (by omega)]
        exact hU1 j hj0 hjlen hdescj hpjpos
      have hA2a : ∀ j, 0 < j → j < (h.set pos newitem).length →
          (j - 1) / 2 = pos → ¬ entryLt (eget (h.set pos newitem) j)
            newitem := by
        intro j hj0 hjlen hpj
        rw [hlenset] at hjlen
        exfalso
        omega
      have hA2b : sp ≠ pos → ∀ j, 0 < j → j < (h.set pos newitem).length →
          (j - 1) / 2 = pos →
          ¬ entryLt (eget (h.set pos newitem) j)
            (eget (h.set pos newitem) ((pos - 1) / 2)) := by
        intro hsp j hj0 hjlen hpj
        rw [hlenset] at hjlen
        exfalso
        omega
      obtain ⟨ih1, ih2, ih3, ih4⟩ := siftdown_spec sp newitem pos
        (h.set pos newitem) (by rw [hlenset]; exact hlen) hdesc hA1 hA2a hA2b
      refine ⟨by rw [ih1, hlenset], ?_, ih3, ?_⟩
      · intro q hq
        rw [ih2 q hq,
          eget_set_ne h pos q newitem (fun he => hq (he ▸ hdesc))]
      · rw [eget_set_self h pos newitem hlen] at ih4
        have hreq : (siftdownAux (h.set pos newitem) newitem sp pos :
            Multiset Entry) = ((h.set pos newitem : List Entry) :
            Multiset Entry) := add_right_cancel ih4
        rw [hreq]
        exact mset_set h pos newitem hlen

lemma siftup_at (sp : ℕ) (newitem : Entry) (pos : ℕ) (h : List Entry)
    (hlen : pos < h.length) (hdesc : Desc sp pos)
    (hU1 : ∀ j, 0 < j → j < h.length → Desc sp ((j - 1) / 2) →
      (j - 1) / 2 ≠ pos → ¬ entryLt (eget h j) (eget h ((j - 1) / 2)))
    (hU2 : sp ≠ pos → ∀ j, 0 < j → j < h.length → (j - 1) / 2 = pos →
      ¬ entryLt (eget h j) (eget h ((pos - 1) / 2))) :
    (siftupAux h newitem sp pos).length = h.length ∧
    (∀ q, ¬ Desc sp q → eget (siftupAux h newitem sp pos) q = eget h q) ∧
    HeapAt (siftupAux h newitem sp pos) sp ∧
    ((siftupAux h newitem sp pos : Multiset Entry) + {eget h pos} =
      (h : Multiset Entry) + {newitem}) :=
  siftup_spec sp newitem (h.length - pos) pos h rfl hlen hdesc hU1 hU2

lemma isHeap_of_heapAt_zero {l : List Entry} (hl : HeapAt l 0) : IsHeap l :=
  fun j hj0 hjlen => hl j hj0 hjlen (Desc.zero _)

lemma heappush_spec (h : List Entry) (e : Entry) (hh : IsHeap h) :
    (heappush h e).length = h.length + 1 ∧ IsHeap (heappush h e) ∧
    ((heappush h e : Multiset Entry) = (h : Multiset Entry) + {e}) := by
  unfold heappush
  have hlenapp : (h ++ [e]).length = h.length + 1 := by simp
  obtain ⟨s1, s2, s3, s4⟩ := siftdown_spec 0 e h.length (h ++ [e])
    (by omega) (Desc.zero _)
    (by
      intro j hj0 hjlen hjpos hpjpos _
      rw [hlenapp] at hjlen
      rw [eget_append_left h [e] j (by omega),
        eget_append_left h [e] ((j - 1) / 2) (by omega)]
      exact hh j hj0 (by omega))
    (by
      intro j hj0 hjlen hpj
      rw [hlenapp] at hjlen
      exfalso
      omega)
    (by
      intro _ j hj0 hjlen hpj
      rw [hlenapp] at hjlen
      exfalso
      omega)
  refine ⟨by rw [s1, hlenapp], isHeap_of_heapAt_zero s3, ?_⟩
  rw [eget_append_last h e] at s4
  have happ : ((h ++ [e] : List Entry) : Multiset Entry) =
      (h : Multiset Entry) + {e} := by
    rw [← Multiset.coe_singleton e, ← Multiset.coe_add]
  rw [happ] at s4
  exact add_right_cancel s4

lemma isHeap_le_root (l : List Entry) (hh : IsHeap l) :
    ∀ j, j < l.length → ¬ entryLt (eget l j) (eget l 0) := by
  intro j
  induction j using Nat.strong_induction_on with
  | _ j IHj =>
    intro hjlen
    rcases Nat.eq_zero_or_pos j with h0 | hj0
    · rw [h0]
      exact entryLt_irrefl _
    · exact not_entryLt_trans (IHj ((j - 1) / 2) (by omega) (by omega))
        (hh j hj0 hjlen)

lemma isHeap_root_min (l : List Entry) (hh : IsHeap l) (e : Entry)
    (he : e ∈ l) : ¬ entryLt e (eget l 0) := by
  obtain ⟨i, hi, hei⟩ := mem_eget l e he
  rw [← hei]
  exact isHeap_le_root l hh i hi

lemma heappop_spec (h : List Entry) (hne : h ≠ []) (hh : IsHeap h) :
    ∃ rest, heappop h = some (eget h 0, rest) ∧
      rest.length + 1 = h.length ∧ IsHeap rest ∧
      ((rest : Multiset Entry) + {eget h 0} = (h : Multiset Entry)) := by
  have hpos : 0 < h.length := List.length_pos.mpr hne
  unfold heappop
  rw [dif_neg hne]
  by_cases hdrop : h.dropLast = []
  · rw [if_pos hdrop]
    have hlen1 : h.length = 1 := by
      have hld := h.length_dropLast
      have : h.dropLast.length = 0 := by rw [hdrop]; rfl
      omega
    obtain ⟨x, rfl⟩ : ∃ x, h = [x] := by
      cases h with
      | nil => exact absurd rfl hne
      | cons a t =>
          cases t with
          | nil => exact ⟨a, rfl⟩
          | cons b t2 => simp at hlen1
    refine ⟨[], by simp [eget], by simp, ?_, by simp [eget]⟩
    intro j hj0 hjlen
    simp at hjlen
  · rw [if_neg hdrop]
    have hld := h.length_dropLast
    have hdl0 : 0 < h.dropLast.length := List.length_pos.mpr hdrop
    have hlen2 : 2 ≤ h.length := by omega
    have hblen : (h.dropLast.set 0 (h.getLast hne)).length =
        h.length - 1 := by
      rw [List.length_set, hld]
    obtain ⟨s1, s2, s3, s4⟩ := siftup_at 0 (h.getLast hne) 0
      (h.dropLast.set 0 (h.getLast hne)) (by omega) (Desc.refl 0)
      (by
        intro j hj0 hjlen hdescj hpj0
        rw [hblen] at hjlen
        rw [eget_set_ne h.dropLast 0 j (h.getLast hne) (by omega),
          eget_set_ne h.dropLast 0 ((j - 1) / 2) (h.getLast hne) (by omega),
          eget_dropLast h j (by omega), eget_dropLast h ((j - 1) / 2)
            (by omega)]
        exact hh j hj0 (by omega))
      (fun hsp => absurd rfl hsp)
    refine ⟨_, ?_, ?_, isHeap_of_heapAt_zero s3, ?_⟩
    · rw [eget_dropLast h 0 (by omega)]
    · rw [s1, hblen]
      omega
    · rw [eget_set_self h.dropLast 0 (h.getLast hne) hdl0] at s4
      have hr : (siftupAux (h.dropLast.set 0 (h.getLast hne))
          (h.getLast hne) 0 0 : Multiset Entry) =
          ((h.dropLast.set 0 (h.getLast hne) : List Entry) :
            Multiset Entry) := add_right_cancel s4
      rw [hr]
      have e2 := mset_set h.dropLast 0 (h.getLast hne) hdl0
      rw [eget_dropLast h 0 (by omega)] at e2
      rw [e2]
      exact mset_dropLast h hne

lemma heapifyGo_spec : ∀ (k : ℕ) (h : List Entry), 2 * k ≤ h.length →
    (∀ j, 0 < j → j < h.length → k ≤ (j - 1) / 2 →
      ¬ entryLt (eget h j) (eget h ((j - 1) / 2))) →
    (heapifyGo h k).length = h.length ∧ IsHeap (heapifyGo h k) ∧
    ((heapifyGo h k : Multiset Entry) = (h : Multiset Entry)) := by
  intro k
  induction k with
  | zero =>
      intro h _ hfrom
      exact ⟨rfl, fun j hj0 hjlen => hfrom j hj0 hjlen (Nat.zero_le _), rfl⟩
  | succ k ihk =>
      intro h hk hfrom
      have hklen : k < h.length := by omega
      obtain ⟨s1, s2, s3, s4⟩ := siftup_at k (eget h k) k h hklen
        (Desc.refl k)
        (by
          intro j hj0 hjlen hdescj hpjk
          have := hdescj.le
          exact hfrom j hj0 hjlen (by omega))
        (fun hsp => absurd rfl hsp)
      have hunfold : heapifyGo h (k + 1) =
          heapifyGo (siftupAux h (eget h k) k k) k := rfl
      rw [hunfold]
      obtain ⟨t1, t2, t3⟩ := ihk (siftupAux h (eget h k) k k)
        (by rw [s1]; omega)
        (by
          intro j hj0 hjlen hkj
          rw [s1] at hjlen
          by_cases hdj : Desc k ((j - 1) / 2)
          · exact s3 j hj0 (by rw [s1]; exact hjlen) hdj
          · have hjk : ¬ Desc k j := by
              intro hdescj
              rcases Nat.eq_zero_or_pos k with hk0 | hk0
              · exact hdj (hk0 ▸ Desc.zero _)
              · by_cases hjeq : j = k
                · exact absurd (by omega : ¬ k ≤ (j - 1) / 2) (by simpa using hkj)
                · exact hdj (hdescj.up hjeq).2
            rw [s2 j hjk, s2 ((j - 1) / 2) hdj]
            have hpjne : (j - 1) / 2 ≠ k := fun he => hdj (he ▸ Desc.refl k)
            exact hfrom j hj0 hjlen (by omega))
      refine ⟨by rw [t1, s1], t2, ?_⟩
      rw [t3]
      exact add_right_cancel s4

lemma heapify_spec (h : List Entry) :
    (heapify h).length = h.length ∧ IsHeap (heapify h) ∧
    ((heapify h : Multiset Entry) = (h : Multiset Entry)) := by
  unfold heapify
  refine heapifyGo_spec (h.length / 2) h (by omega) ?_
  intro j hj0 hjlen hpj
  exfalso
  omega

lemma mset_eraseIdx_le (l : List Entry) (i : ℕ) :
    ((l.eraseIdx i : List Entry) : Multiset Entry) ≤ (l : Multiset Entry) := by
  induction l generalizing i with
  | nil => simp
  | cons x xs ih =>
      cases i with
      | zero =>
          show (xs : Multiset Entry) ≤ ((x :: xs : List Entry) : Multiset Entry)
          rw [← Multiset.cons_coe]
          exact Multiset.le_cons_self _ _
      | succ i =>
          show ((x :: xs.eraseIdx i : List Entry) : Multiset Entry) ≤
            ((x :: xs : List Entry) : Multiset Entry)
          rw [← Multiset.cons_coe, ← Multiset.cons_coe]
          exact Multiset.cons_le_cons x (ih i)

lemma calculate_priority_reserved (v : Vehicle)
    (h : v.has_reservation = true) : v.calculate_priority = 0 := by
  unfold Vehicle.calculate_priority
  rw [h]
  simp

lemma calculate_priority_unreserved (v : Vehicle) (hv : validVeh v)
    (h : v.has_reservation = false) : 10 ≤ v.calculate_priority := by
  unfold Vehicle.calculate_priority
  rw [h]
  simp only [Bool.false_eq_true, if_false]
  have hpct : 0 ≤ v.get_charge_percentage := by
    unfold Vehicle.get_charge_percentage
    have h1 : 0 ≤ v.current_charge / v.battery_capacity :=
      div_nonneg hv.2.1 (le_of_lt hv.1)
    linarith
  have htr : 0 ≤ pyTrunc v.get_charge_percentage := by
    rw [pyTrunc, if_pos hpct]
    exact Int.floor_nonneg.mpr hpct
  have hmod : 1 ≤ v.vehicle_type.priority_modifier := by
    cases v.vehicle_type <;> simp [VehicleType.priority_modifier]
  omega

lemma qreach_inv {q : QueueManager} (hq : QReach q) : QInv q := by
  induction hq with
  | init =>
      refine ⟨?_, ?_, ?_⟩
      · intro j hj0 hjlen
        simp [emptyQM] at hjlen
      · intro e he
        simp [emptyQM] at he
      · simp [emptyQM]
  | add v hv _ ih =>
      rename_i q' _
      obtain ⟨hheap, hmem, hnodup⟩ := ih
      obtain ⟨p1, p2, p3⟩ := heappush_spec q'.queue
        ⟨v.calculate_priority, q'.counter, v⟩ hheap
      show QInv ⟨heappush q'.queue ⟨v.calculate_priority, q'.counter, v⟩,
        q'.counter + 1, posInsert q'.vehicle_positions v.vehicle_id q'.counter⟩
      refine ⟨p2, ?_, ?_⟩
      · intro e he
        have he' : e ∈ (heappush q'.queue
            ⟨v.calculate_priority, q'.counter, v⟩ : Multiset Entry) :=
          Multiset.mem_coe.mpr he
        rw [p3] at he'
        rcases Multiset.mem_add.mp he' with hin | hnew
        · obtain ⟨c1, c2, c3⟩ := hmem e (Multiset.mem_coe.mp hin)
          refine ⟨?_, c2, c3⟩
          show e.counter < q'.counter + 1
          omega
        · rw [Multiset.mem_singleton.mp hnew]
          refine ⟨?_, rfl, hv⟩
          show q'.counter < q'.counter + 1
          omega
      · rw [← Multiset.coe_nodup, ← Multiset.map_coe, p3, Multiset.map_add,
          Multiset.map_singleton]
        rw [add_comm, Multiset.singleton_add]
        refine Multiset.nodup_cons.mpr ⟨?_, ?_⟩
        · intro hin
          obtain ⟨e', he', hc⟩ := Multiset.mem_map.mp hin
          have := (hmem e' (Multiset.mem_coe.mp he')).1
          simp only at hc
          omega
        · rw [Multiset.map_coe, Multiset.coe_nodup]
          exact hnodup
  | next _ ih =>
      rename_i q' _
      obtain ⟨hheap, hmem, hnodup⟩ := ih
      unfold QueueManager.get_next_vehicle
      rcases hpop : heappop q'.queue with _ | pr
      · exact ⟨hheap, hmem, hnodup⟩
      · obtain ⟨e, rest⟩ := pr
        have hne : q'.queue ≠ [] := by
          intro h0
          rw [h0] at hpop
          rw [heappop] at hpop
          simp at hpop
        obtain ⟨rest', hpop2, hlen2, hheap2, hms2⟩ :=
          heappop_spec q'.queue hne hheap
        rw [hpop] at hpop2
        injection hpop2 with h1
        have he0 : e = eget q'.queue 0 := congrArg Prod.fst h1
        have hrest : rest = rest' := congrArg Prod.snd h1
        subst hrest
        have hle : (rest : Multiset Entry) ≤ (q'.queue : Multiset Entry) := by
          rw [← hms2]
          exact self_le_add_right _ _
        refine ⟨hheap2, ?_, ?_⟩
        · intro f hf
          have hfq : f ∈ q'.queue :=
            Multiset.mem_coe.mp
              (Multiset.mem_of_le hle (Multiset.mem_coe.mpr hf))
          exact hmem f hfq
        · rw [← Multiset.coe_nodup, ← Multiset.map_coe]
          refine Multiset.nodup_of_le (Multiset.map_le_map hle) ?_
          rw [Multiset.map_coe, Multiset.coe_nodup]
          exact hnodup
  | rem v _ ih =>
      rename_i q' _
      obtain ⟨hheap, hmem, hnodup⟩ := ih
      unfold QueueManager.remove_vehicle
      split_ifs with hguard
      · exact ⟨hheap, hmem, hnodup⟩
      · generalize q'.queue.findIdx?
            (fun e => e.vehicle.vehicle_id == v.vehicle_id) = res
        cases res with
        | none => exact ⟨hheap, hmem, hnodup⟩
        | some i =>
          obtain ⟨t1, t2, t3⟩ := heapify_spec (q'.queue.eraseIdx i)
          have hle : (heapify (q'.queue.eraseIdx i) : Multiset Entry) ≤
              (q'.queue : Multiset Entry) := by
            rw [t3]
            exact mset_eraseIdx_le q'.queue i
          refine ⟨t2, ?_, ?_⟩
          · intro f hf
            have hfq : f ∈ q'.queue :=
              Multiset.mem_coe.mp
                (Multiset.mem_of_le hle (Multiset.mem_coe.mpr hf))
            exact hmem f hfq
          · rw [← Multiset.coe_nodup, ← Multiset.map_coe]
            refine Multiset.nodup_of_le (Multiset.map_le_map hle) ?_
            rw [Multiset.map_coe, Multiset.coe_nodup]
            exact hnodup

/-- C2: on every reachable queue state, `get_next_vehicle` returns the popped
root entry's vehicle; if any queued vehicle holds a reservation the popped
vehicle holds one, and every remaining entry with the popped entry's priority
score carries a strictly larger insertion counter (FIFO tie-break). -/
theorem C2_dequeue_order {q : QueueManager} (hq : QReach q) (e : Entry)
    (rest : List Entry) (hpop : heappop q.queue = some (e, rest)) :
    q.get_next_vehicle.1 = some e.vehicle ∧
    ((∃ f ∈ q.queue, f.vehicle.has_reservation = true) →
      e.vehicle.has_reservation = true) ∧
    (∀ f ∈ rest, f.priority = e.priority → e.counter < f.counter) := by
  obtain ⟨hheap, hmem, hnodup⟩ := qreach_inv hq
  have hne : q.queue ≠ [] := by
    intro h0
    rw [h0] at hpop
    rw [heappop] at hpop
    simp at hpop
  obtain ⟨rest', hpop2, hlen2, hheap2, hms2⟩ := heappop_spec q.queue hne hheap
  rw [hpop] at hpop2
  injection hpop2 with h1
  have he0 : e = eget q.queue 0 := congrArg Prod.fst h1
  have hrest : rest = rest' := congrArg Prod.snd h1
  subst hrest
  have hemem : e ∈ q.queue := by
    rw [he0]
    exact eget_mem q.queue 0 (List.length_pos.mpr hne)
  refine ⟨?_, ?_, ?_⟩
  · unfold QueueManager.get_next_vehicle
    rw [hpop]
  · rintro ⟨f, hf, hfres⟩
    by_contra hres
    have hres' : e.vehicle.has_reservation = false := by
      rcases hb : e.vehicle.has_reservation
      · rfl
      · exact absurd hb hres
    have hf0 : f.priority = 0 := by
      rw [(hmem f hf).2.1, calculate_priority_reserved f.vehicle hfres]
    have he10 : 10 ≤ e.priority := by
      rw [(hmem e hemem).2.1]
      exact calculate_priority_unreserved e.vehicle (hmem e hemem).2.2 hres'
    have hlt : entryLt f e := by
      unfold entryLt
      exact Or.inl (by omega)
    exact isHeap_root_min q.queue hheap f hf (he0 ▸ hlt)
  · intro f hf hfp
    have hfq : f ∈ q.queue := by
      have h2 : (rest : Multiset Entry) ≤ (q.queue : Multiset Entry) := by
        rw [← hms2]
        exact self_le_add_right _ _
      exact Multiset.mem_coe.mp
        (Multiset.mem_of_le h2 (Multiset.mem_coe.mpr hf))
    have hmin : ¬ entryLt f e := by
      rw [he0]
      exact isHeap_root_min q.queue hheap f hfq
    have hcne : f.counter ≠ e.counter := by
      intro hceq
      have hmapms : Multiset.map Entry.counter (q.queue : Multiset Entry) =
          Multiset.map Entry.counter (rest : Multiset Entry) +
            {e.counter} := by
        rw [← hms2, Multiset.map_add, Multiset.map_singleton, ← he0]
      have hndms : (Multiset.map Entry.counter
          (q.queue : Multiset Entry)).Nodup := by
        rw [Multiset.map_coe, Multiset.coe_nodup]
        exact hnodup
      rw [hmapms, add_comm, Multiset.singleton_add] at hndms
      refine (Multiset.nodup_cons.mp hndms).1 ?_
      rw [← hceq]
      exact Multiset.mem_map_of_mem Entry.counter (Multiset.mem_coe.mpr hf)
    rcases Nat.lt_trichotomy f.counter e.counter with hlt' | heq' | hgt'
    · refine absurd ?_ hmin
      unfold entryLt
      exact Or.inr ⟨hfp, Or.inl hlt'⟩
    · exact absurd heq' hcne
    · exact hgt'

lemma vehA_prio : vehA.calculate_priority = 0 := rfl

lemma vehB_prio : vehB.calculate_priority = 10 := by
  norm_num [vehB, mkVehicle, Vehicle.calculate_priority,
    Vehicle.get_charge_percentage, pyTrunc, VehicleType.priority_modifier]

lemma vehC_prio : vehC.calculate_priority = 0 := rfl

lemma push_vehA : heappush [] (⟨0, 0, vehA⟩ : Entry) = [⟨0, 0, vehA⟩] := by
  rw [heappush, siftdownAux]
  norm_num

lemma push_vehB :
    heappush [(⟨0, 0, vehA⟩ : Entry)] ⟨10, 1, vehB⟩ =
      [⟨0, 0, vehA⟩, ⟨10, 1, vehB⟩] := by
  rw [heappush, siftdownAux]
  norm_num [eget, entryLt]

lemma push_vehC :
    heappush [(⟨0, 0, vehA⟩ : Entry), ⟨10, 1, vehB⟩] ⟨0, 2, vehC⟩ =
      [⟨0, 0, vehA⟩, ⟨10, 1, vehB⟩, ⟨0, 2, vehC⟩] := by
  rw [heappush, siftdownAux]
  norm_num [eget, entryLt]

lemma demoQ2_queue_eval :
    demoQ2.queue = [⟨0, 0, vehA⟩, ⟨10, 1, vehB⟩] := by
  rw [show demoQ2.queue =
      heappush (heappush [] ⟨vehA.calculate_priority, 0, vehA⟩)
        ⟨vehB.calculate_priority, 1, vehB⟩ from rfl,
    vehA_prio, vehB_prio, push_vehA, push_vehB]

lemma pop_demoQ2 :
    heappop [(⟨0, 0, vehA⟩ : Entry), ⟨10, 1, vehB⟩] =
      some (⟨0, 0, vehA⟩, [⟨10, 1, vehB⟩]) := by
  have h1 : ([(⟨0, 0, vehA⟩ : Entry), ⟨10, 1, vehB⟩] : List Entry) ≠ [] := by
    simp
  rw [heappop, dif_neg h1]
  rw [show ([(⟨0, 0, vehA⟩ : Entry), ⟨10, 1, vehB⟩]).dropLast =
      [⟨0, 0, vehA⟩] from rfl,
    show ([(⟨0, 0, vehA⟩ : Entry), ⟨10, 1, vehB⟩]).getLast h1 =
      ⟨10, 1, vehB⟩ from rfl]
  rw [if_neg (by simp : ¬([(⟨0, 0, vehA⟩ : Entry)] = []))]
  rw [show ([(⟨0, 0, vehA⟩ : Entry)].set 0 ⟨10, 1, vehB⟩) =
      [⟨10, 1, vehB⟩] from rfl]
  rw [siftupAux]
  rw [dif_neg (by norm_num :
    ¬(2 * 0 + 1 < ([(⟨10, 1, vehB⟩ : Entry)] : List Entry).length))]
  rw [siftdownAux]
  norm_num [eget]

/-- C2 witness: on the concrete reachable queue holding the unreserved
`vehB` (priority 10, counter 1) and the reserved `vehA` (priority 0,
counter 0), dequeueing returns the reserved vehicle, and the remaining
same-priority check holds. -/
theorem C2_dequeue_order_witness :
    demoQ2.get_next_vehicle.1 = some vehA ∧
    ((∃ f ∈ demoQ2.queue, f.vehicle.has_reservation = true) →
      vehA.has_reservation = true) ∧
    (∀ f ∈ [(⟨10, 1, vehB⟩ : Entry)],
      f.priority = (⟨0, 0, vehA⟩ : Entry).priority →
        (⟨0, 0, vehA⟩ : Entry).counter < f.counter) := by
  have hpop : heappop demoQ2.queue =
      some (⟨0, 0, vehA⟩, [⟨10, 1, vehB⟩]) := by
    rw [demoQ2_queue_eval]
    exact pop_demoQ2
  exact C2_dequeue_order
    (QReach.add vehB (by decide) (QReach.add vehA (by decide) QReach.init))
    ⟨0, 0, vehA⟩ [⟨10, 1, vehB⟩] hpop

/-- C5: the failing input for the rank claim.  After enqueueing the reserved
`vehA` (key (0,0)) and the unreserved `vehB` (key (10,1)), enqueueing the
reserved `vehC` (key (0,2)) makes `add_vehicle` report position 2 (the heap
array index of the new entry), while the count of already-queued entries with
a strictly smaller sort key — the rank required by the spec — is 1. -/
theorem C5_position_vs_rank :
    (demoQ2.add_vehicle vehC).1 = 2 ∧
    specRank demoQ2.queue ⟨vehC.calculate_priority, demoQ2.counter, vehC⟩
      = 1 := by
  have hq3 : heappush demoQ2.queue
      ⟨vehC.calculate_priority, demoQ2.counter, vehC⟩ =
      [⟨0, 0, vehA⟩, ⟨10, 1, vehB⟩, ⟨0, 2, vehC⟩] := by
    rw [demoQ2_queue_eval, vehC_prio,
      show demoQ2.counter = 2 from rfl]
    exact push_vehC
  constructor
  · simp only [QueueManager.add_vehicle]
    rw [hq3]
    decide
  · rw [demoQ2_queue_eval]
    decide

end AVCS
